import Mathlib

/-!
Verification of the nexsearch search API route (src/app/api/search/route.ts)
against its natural-language specification.

The TypeScript route is shallowly embedded: pure string manipulation is
translated directly; every network/LLM call is replaced by an explicit
outcome parameter (an "oracle") enumerating the ways the call can resolve
(missing credential, thrown error, non-2xx, malformed payload, parsed
payload).  JavaScript `undefined` is modelled by `Option.none`, and the
JavaScript truthiness of a string (`s` is truthy iff non-empty) by
`jsTruthy`.  All definitions are executable so that concrete runs of the
handler can be evaluated inside proofs.
-/

/-! ## JavaScript string primitives -/

/-- Whitespace as matched by JS `\s` / `trim` (ASCII part; the route only
manipulates ASCII payloads). -/
def isWsJs (c : Char) : Bool :=
  c == ' ' || c == '\t' || c == '\n' || c == '\r' || c == '\x0b' || c == '\x0c'

/-- `String.prototype.trim`: drop leading and trailing whitespace. -/
def trimList (l : List Char) : List Char :=
  ((l.dropWhile isWsJs).reverse.dropWhile isWsJs).reverse

def jsTrim (s : String) : String := String.mk (trimList s.data)

/-- JS falsiness of a string value: `""` is falsy, everything else truthy. -/
def strIsEmpty (s : String) : Bool := s == ""

/-- Truthiness of a possibly-`undefined` string (`Option.none` = `undefined`). -/
def jsTruthy (v : Option String) : Bool :=
  match v with
  | some s => !(s == "")
  | none => false

/-- `a || dflt` for a possibly-undefined string `a` and a string default. -/
def jsOrD (a : Option String) (dflt : String) : String :=
  if jsTruthy a then a.getD "" else dflt

/-- `a || b || ''` for possibly-undefined strings, as used all over the route. -/
def jsOrF (a b : Option String) : String :=
  if jsTruthy a then a.getD "" else if jsTruthy b then b.getD "" else ""

/-- `p` is a prefix of the second list (char-exact). -/
def isPrefixList : List Char → List Char → Bool
  | [], _ => true
  | _ :: _, [] => false
  | a :: as, b :: bs => a == b && isPrefixList as bs

def subListAux (needle : List Char) : List Char → Bool
  | [] => needle.isEmpty
  | b :: bs => isPrefixList needle (b :: bs) || subListAux needle bs

/-- `haystack.includes(needle)` (case-sensitive substring test). -/
def containsSub (haystack needle : String) : Bool :=
  subListAux needle.data haystack.data

/-- `String.prototype.toLowerCase` (ASCII case fold, which is all the route
relies on). -/
def toLowerStr (s : String) : String := String.mk (s.data.map Char.toLower)

/-- `s.startsWith(p)`. -/
def startsWithStr (s p : String) : Bool := isPrefixList p.data s.data

/-- Strip `p` from the front of `l` if present, returning the remainder. -/
def dropPre : List Char → List Char → Option (List Char)
  | [], l => some l
  | _ :: _, [] => none
  | a :: as, b :: bs => if a == b then dropPre as bs else none

/-- Case-insensitive variant of `dropPre` (for the `/i` regexes). -/
def dropPreCI : List Char → List Char → Option (List Char)
  | [], l => some l
  | _ :: _, [] => none
  | a :: as, b :: bs =>
      if Char.toLower a == Char.toLower b then dropPreCI as bs else none

/-- `s.split(sep)` for a single separator char: every occurrence splits,
empty segments are kept (JS semantics). -/
def splitAnyChar (p : Char → Bool) : List Char → List (List Char)
  | [] => [[]]
  | c :: rest =>
    let r := splitAnyChar p rest
    if p c then [] :: r
    else
      match r with
      | [] => [[c]]
      | h :: t => (c :: h) :: t

/-- Helper for `split(/[\n\r]+/)`: a run of separators produces a single
split point, so empty segments that sit strictly between two separator
runs disappear (leading/trailing empties survive, matching JS). -/
def dropInteriorEmpties : List (List Char) → List (List Char)
  | [] => []
  | [x] => [x]
  | x :: y :: rest =>
      if x.isEmpty then dropInteriorEmpties (y :: rest)
      else x :: dropInteriorEmpties (y :: rest)

/-- `s.split(/[\n\r]+/)` (JS regex split on runs of newline chars). -/
def splitRunsNlCr (l : List Char) : List (List Char) :=
  match splitAnyChar (fun c => c == '\n' || c == '\r') l with
  | [] => []
  | h :: t => h :: dropInteriorEmpties t

/-- `query.split('\n')` as used by the POST handler. -/
def jsSplitNewline (s : String) : List String :=
  (splitAnyChar (fun c => c == '\n') s.data).map String.mk

/-- `", ".join` used for the `source` column. -/
def joinComma (l : List String) : String := String.intercalate ", " l

/-! ## Data formatting helpers (route.ts lines 859-907) -/

/-- One step of the search for `/\$?(\d+\.?\d*)\s*(B|M|K|T).*?(\(\d{4}\))?/i`
at a fixed position.  Returns `(fullMatch, digitsGroup, unitChar, yearGroup)`.
Because the digit runs are taken greedily and the following char classes are
disjoint, the regex engine never needs to backtrack here; the lazy `.*?`
followed by an optional group means the year group only matches when the
`(dddd)` text directly follows the unit letter. -/
def matchRevAt (l : List Char) : Option (List Char × List Char × Char × List Char) :=
  let dollar := l.head? == some '$'
  let l1 := if dollar then l.tail else l
  let ds := l1.takeWhile Char.isDigit
  if ds.isEmpty then none
  else
    let rest1 := l1.drop ds.length
    let hasDot := rest1.head? == some '.'
    let ds2 := if hasDot then rest1.tail.takeWhile Char.isDigit else []
    let digits := if hasDot then ds ++ '.' :: ds2 else ds
    let rest2 := if hasDot then rest1.tail.drop ds2.length else rest1
    let ws := rest2.takeWhile isWsJs
    let rest3 := rest2.drop ws.length
    match rest3 with
    | [] => none
    | u :: rest4 =>
      if u == 'B' || u == 'M' || u == 'K' || u == 'T'
          || u == 'b' || u == 'm' || u == 'k' || u == 't' then
        let year :=
          match rest4 with
          | '(' :: d1 :: d2 :: d3 :: d4 :: ')' :: _ =>
            if d1.isDigit && d2.isDigit && d3.isDigit && d4.isDigit then
              ['(', d1, d2, d3, d4, ')']
            else []
          | _ => []
        let full := (if dollar then ['$'] else []) ++ digits ++ ws ++ [u] ++ year
        some (full, digits, u, year)
      else none

/-- Leftmost match of the revenue regex. -/
def revScan : List Char → Option (List Char × List Char × Char × List Char)
  | [] => none
  | c :: rest =>
    match matchRevAt (c :: rest) with
    | some r => some r
    | none => revScan rest

/-- `formatRevenue` on a string input.  NOTE the source destructures the
match array as `const [ amount, unit, year] = match`, so `amount` is the
FULL match (index 0), `unit` is capture group 1 (the digits) and `year` is
capture group 2 (the unit letter); the real year group (index 3) is unused.
The template then produces `$` ++ fullMatch ++ digits.toUpperCase() ++ unitChar. -/
def formatRevenueStr (s : String) : String :=
  match revScan s.data with
  | some (full, digits, u, _year) =>
    "$" ++ String.mk full ++ String.mk (digits.map Char.toUpper) ++ String.mk [u]
  | none => s

/-- `(n / unit).toFixed(1)` idealised over exact rationals (round half up);
the route feeds it integers from the enrichment payloads. -/
def fixed1 (n unitSize : Nat) : String :=
  let tenths := (10 * n + unitSize / 2) / unitSize
  toString (tenths / 10) ++ "." ++ toString (tenths % 10)

/-- `formatRevenue` on a number input (route.ts lines 879-887). -/
def formatRevenueNum (n : Nat) : String :=
  if 1000000000 ≤ n then "$" ++ fixed1 n 1000000000 ++ "B"
  else if 1000000 ≤ n then "$" ++ fixed1 n 1000000 ++ "M"
  else if 1000 ≤ n then "$" ++ fixed1 n 1000 ++ "K"
  else "$" ++ toString n

/-- First match of `/(\d+)-(\d+)/` replaced by `$1 - $2` (both digit runs are
maximal, so the regex never backtracks usefully). -/
def empReplace : List Char → List Char
  | [] => []
  | c :: rest =>
    if c.isDigit then
      let run := (c :: rest).takeWhile Char.isDigit
      let after := (c :: rest).drop run.length
      match after with
      | '-' :: a2 =>
        let run2 := a2.takeWhile Char.isDigit
        if run2.isEmpty then c :: empReplace rest
        else run ++ [' ', '-', ' '] ++ run2 ++ a2.drop run2.length
      | _ => c :: empReplace rest
    else c :: empReplace rest

/-- `formatEmployees`: strip all whitespace, then space out the first
`<digits>-<digits>` range (route.ts lines 890-894). -/
def formatEmployees (s : String) : String :=
  String.mk (empReplace (s.data.filter (fun c => !isWsJs c)))

/-- `formatLinkedInUrl` (route.ts lines 896-907): prepend `https://` when the
url does not start with `http`, then require a `/company/` path, else
`undefined`. -/
def formatLinkedInUrl (url : String) : Option String :=
  let u := if startsWithStr url "http" then url else "https://" ++ url
  if containsSub u "/company/" then some u else none

/-! ## Data model

`undefined` fields are `Option.none`.  A `SparseCompany` is the shape fed to
the POST handler's per-field merge (TS `Partial<CompanyResult>` restricted to
the five merged fields); `CompanyResult` is the full record shape returned by
the OpenAI and EXA detail helpers; `StatusRecord` is a response row after the
handler attaches `status`. -/

structure SparseCompany where
  domain : Option String
  geography : Option String
  revenue : Option String
  employees : Option String
  linkedinUrl : Option String
deriving DecidableEq, Repr

def emptySparse : SparseCompany := ⟨none, none, none, none, none⟩

/-- Number of present keys (`Object.keys(x).length` over the five fields). -/
def sparseKeyCount (p : SparseCompany) : Nat :=
  [p.domain, p.geography, p.revenue, p.employees, p.linkedinUrl].countP Option.isSome

structure CompanyResult where
  companyName : String
  domain : Option String
  geography : Option String
  revenue : Option String
  employees : Option String
  linkedinUrl : Option String
  source : Option String
deriving DecidableEq, Repr

def toSparse (c : CompanyResult) : SparseCompany :=
  ⟨c.domain, c.geography, c.revenue, c.employees, c.linkedinUrl⟩

structure StatusRecord where
  companyName : String
  domain : Option String
  geography : Option String
  revenue : Option String
  employees : Option String
  linkedinUrl : Option String
  source : Option String
  status : String
deriving DecidableEq, Repr

/-! ## Provider adapters

Each network/LLM interaction is an explicit outcome value.  "Never throws"
in the TS contract corresponds to these Lean functions being total: every
failure mode of a call is one of the enumerated outcomes. -/

/-- Outcome of the OpenAI `getCompanyDetails` call (route.ts 1288-1387). -/
inductive OpenAIOutcome
  /-- `OPENAI_API_KEY` missing. -/
  | noKey
  /-- the completion request threw (network error, non-2xx surfaced by SDK). -/
  | apiError
  /-- empty/undefined completion content. -/
  | noResponse
  /-- `JSON.parse` threw on the content. -/
  | parseError
  /-- parsed JSON payload; fields may be absent. -/
  | ok (domain geography revenue employees linkedinUrl : Option String)
deriving DecidableEq, Repr

/-- `getCompanyDetails` (route.ts 1288-1387): the LLM-completion adapter.
Every failure mode returns a fully-populated sentinel record, not `{}`. -/
def getCompanyDetails (company : String) (o : OpenAIOutcome) : CompanyResult :=
  match o with
  | .noKey =>
    ⟨company, some "No API Key", some "", some "", some "", some "", some "Error"⟩
  | .apiError =>
    ⟨company, some "API Error", some "", some "", some "", some "", some "OpenAI Error"⟩
  | .noResponse =>
    ⟨company, some "No Response", some "", some "", some "", some "", some "OpenAI Error"⟩
  | .parseError =>
    ⟨company, some "Parse Error", some "", some "", some "", some "", some "OpenAI Error"⟩
  | .ok domain geography revenue employees linkedinUrl =>
    ⟨company,
     some (jsOrD domain ""),
     some (jsOrD geography ""),
     some (if jsTruthy revenue then formatRevenueStr (revenue.getD "") else ""),
     some (if jsTruthy employees then formatEmployees (employees.getD "") else ""),
     (if jsTruthy linkedinUrl then formatLinkedInUrl (linkedinUrl.getD "") else some ""),
     some "OpenAI"⟩

/-- An organization object from the Apollo API (route.ts 95-101). -/
structure ApolloOrganization where
  domain : Option String
  location : Option String
  annual_revenue : Option Nat
  employee_count : Option Nat
  linkedin_url : Option String
deriving DecidableEq, Repr

/-- Outcome of the Apollo calls inside `getApolloData`.  `result e s` gives
the enrich response organization (when a domain was supplied and the enrich
call returned one) and the search response organizations (`none` = non-2xx). -/
inductive ApolloOutcome
  | noKey
  | thrown
  | result (enrich : Option ApolloOrganization)
           (searchOrgs : Option (List ApolloOrganization))
deriving DecidableEq, Repr

/-- `org.domain?.toLowerCase().replace(/^www\./, '') === domain.toLowerCase()`. -/
def apolloDomainMatch (org : ApolloOrganization) (d : String) : Bool :=
  match org.domain with
  | some s =>
    let low := toLowerStr s
    let stripped :=
      match dropPre "www.".data low.data with
      | some r => String.mk r
      | none => low
    stripped == toLowerStr d
  | none => false

/-- Field mapping of `getApolloData` (route.ts 675-690).  The final
`Object.entries(...).filter(([ value]) => ...)` destructures the KEY of each
entry, and all five keys are non-empty strings, so the filter keeps every
entry: the success payload always carries all five fields (possibly `""`). -/
def apolloToResult (org : ApolloOrganization) (domainArg : Option String) : SparseCompany :=
  { domain := some (jsOrF org.domain domainArg),
    geography := some (jsOrD org.location ""),
    revenue := some (match org.annual_revenue with
                     | some n => if n != 0 then formatRevenueNum n else ""
                     | none => ""),
    employees := some (match org.employee_count with
                       | some n => toString n
                       | none => ""),
    linkedinUrl := some (jsOrD org.linkedin_url "") }

/-- `getApolloData` (route.ts 600-695).  With no `domain` argument the enrich
step is skipped; search results are matched by normalized domain when a
domain is known, else the first hit is used.  All failure paths return `{}`. -/
def getApolloData (company : String) (domainArg : Option String) (o : ApolloOutcome) :
    SparseCompany :=
  match o with
  | .noKey => emptySparse
  | .thrown => emptySparse
  | .result enrich searchOrgs =>
    let enriched1 : Option ApolloOrganization :=
      match domainArg with
      | some _ => enrich
      | none => none
    let enriched2 : Option ApolloOrganization :=
      match enriched1 with
      | some org => some org
      | none =>
        match searchOrgs with
        | none => none
        | some orgs =>
          if orgs.isEmpty then none
          else
            match domainArg with
            | some d =>
              match orgs.find? (fun org => apolloDomainMatch org d) with
              | some org => some org
              | none => orgs.head?
            | none => orgs.head?
    match enriched2 with
    | none => emptySparse
    | some org => apolloToResult org domainArg

/-- The `company` object of a Deepseek enrich response (route.ts 60-70). -/
structure DeepseekCompany where
  domain : Option String
  headquarters_location : Option String
  annual_revenue : Option Nat
  employee_count : Option Nat
  linkedin_url : Option String
deriving DecidableEq, Repr

inductive DeepseekOutcome
  | noKey
  /-- fetch or `res.json()` rejected. -/
  | thrown
  /-- parsed body with no `company` field (also covers non-2xx JSON bodies,
  since the code never checks `res.ok` here). -/
  | noCompany
  | ok (c : DeepseekCompany)
deriving DecidableEq, Repr

/-- `getDeepseekData` (route.ts 698-760).  Same key-destructuring filter as
Apollo, hence all five fields present on success; `{}` on every failure. -/
def getDeepseekData (company : String) (domainArg : Option String) (o : DeepseekOutcome) :
    SparseCompany :=
  match o with
  | .noKey => emptySparse
  | .thrown => emptySparse
  | .noCompany => emptySparse
  | .ok c =>
    { domain := some (jsOrF c.domain domainArg),
      geography := some (jsOrD c.headquarters_location ""),
      revenue := some (match c.annual_revenue with
                       | some n => if n != 0 then formatRevenueNum n else ""
                       | none => ""),
      employees := some (match c.employee_count with
                         | some n => toString n
                         | none => ""),
      linkedinUrl := some (jsOrD c.linkedin_url "") }

/-! ## EXA semantic-search adapter -/

/-- Outcome of the Deepseek extraction step inside `getCompanyDetailsFromExa`
(route.ts 1192-1285). -/
inductive ExaExtractOutcome
  /-- the whole helper threw: returns the `Error`/`EXA Error` record. -/
  | errored
  /-- no Deepseek key, non-2xx, or empty content: base record unchanged. -/
  | unavailable
  /-- `JSON.parse` threw: base record unchanged. -/
  | parseFailed
  /-- parsed JSON fields (absent = `none`). -/
  | parsed (geography revenue employees linkedinUrl : Option String)
deriving DecidableEq, Repr

/-- `getCompanyDetailsFromExa` (route.ts 1192-1285).  A parsed field is
accepted only under its explicit guard: geography non-empty, revenue
containing `$`, employees containing a digit, linkedinUrl containing
`linkedin.com/company/`. -/
def getCompanyDetailsFromExa (companyName : String) (x : ExaExtractOutcome) :
    CompanyResult :=
  match x with
  | .errored =>
    ⟨companyName, some "Error", some "", some "", some "", some "", some "EXA Error"⟩
  | .unavailable =>
    ⟨companyName, some "", some "", some "", some "", some "", some "EXA"⟩
  | .parseFailed =>
    ⟨companyName, some "", some "", some "", some "", some "", some "EXA"⟩
  | .parsed g r e li =>
    ⟨companyName,
     some "",
     some (match g with
           | some s => if !(s == "") then s else ""
           | none => ""),
     some (match r with
           | some s => if containsSub s "$" then s else ""
           | none => ""),
     some (match e with
           | some s => if s.data.any Char.isDigit then s else ""
           | none => ""),
     some (match li with
           | some s => if containsSub s "linkedin.com/company/" then s else ""
           | none => ""),
     some "EXA"⟩

/-- Outcome of `searchExaAPI` (route.ts 1005-1038): `fail` covers missing
key, non-2xx, thrown fetch and an empty result list; on success the first
hit's URL host is the candidate domain. -/
inductive ExaOutcome
  | fail
  | ok (firstHitHost : String) (extract : ExaExtractOutcome)
deriving DecidableEq, Repr

/-! ## Fan-out over the four adapters (POST list branch, route.ts 1493-1588) -/

/-- The EXA arm of the `Promise.all` (route.ts 1501-1519): on search success
the detail record is contributed with `domain: results.domain ||
details.domain || ''`; otherwise `null`. -/
def exaContribution (company : String) (o : ExaOutcome) : Option SparseCompany :=
  match o with
  | .fail => none
  | .ok host x =>
    let details := getCompanyDetailsFromExa company x
    some { toSparse details with domain := some (jsOrF (some host) details.domain) }

/-- The OpenAI arm (route.ts 1520-1532): `getCompanyDetails` always returns a
record with at least `companyName` and `source` present, so `Object.keys(data)
.length > 0` always holds and this arm always contributes. -/
def openaiContribution (company : String) (o : OpenAIOutcome) : Option SparseCompany :=
  some (toSparse (getCompanyDetails company o))

/-- The Apollo arm (route.ts 1533-1545): contributes only when the partial
has at least one key. -/
def apolloContribution (company : String) (o : ApolloOutcome) : Option SparseCompany :=
  let data := getApolloData company none o
  if 0 < sparseKeyCount data then some data else none

/-- The Deepseek arm (route.ts 1546-1558). -/
def deepseekContribution (company : String) (o : DeepseekOutcome) : Option SparseCompany :=
  let data := getDeepseekData company none o
  if 0 < sparseKeyCount data then some data else none

/-- Per-company adapter outcomes for one request. -/
structure AdapterOutcomes where
  exa : ExaOutcome
  openai : OpenAIOutcome
  apollo : ApolloOutcome
  deepseek : DeepseekOutcome

/-! ## Merge engine (route.ts 1562-1573) -/

/-- One `apiResults.forEach` step: a `null` arm leaves `bestData` unchanged;
a non-null arm rewrites every field to `bestData.f || data.f || ''`. -/
def mergeStep (best : SparseCompany) (data : Option SparseCompany) : SparseCompany :=
  match data with
  | none => best
  | some d =>
    { domain := some (jsOrF best.domain d.domain),
      geography := some (jsOrF best.geography d.geography),
      revenue := some (jsOrF best.revenue d.revenue),
      employees := some (jsOrF best.employees d.employees),
      linkedinUrl := some (jsOrF best.linkedinUrl d.linkedinUrl) }

/-- The full fold of the four (or any number of) adapter results into
`bestData`, starting from the empty object. -/
def mergeAll (rs : List (Option SparseCompany)) : SparseCompany :=
  rs.foldl mergeStep emptySparse

/-- `status` attached at response time (route.ts 1595-1598):
`result.domain && result.domain !== 'Not found' ? 'verified' : 'not_found'`. -/
def computeStatus (domain : Option String) : String :=
  match domain with
  | none => "not_found"
  | some d => if d == "" then "not_found" else if d == "Not found" then "not_found" else "verified"

/-- `findMostReliableValue` (route.ts 949-964): longest-string conflict
resolution.  Present in the source but NOT called from the POST merge path
(`combineData`, its only caller, is itself unused). -/
def findMostReliableValue (values : List (Option String)) : Option String :=
  let validValues := values.filterMap (fun v =>
    match v with
    | some s =>
      if !(s == "") && !(s == "Not available") && !(s == "undefined") then some s else none
    | none => none)
  match validValues with
  | [] => none
  | h :: t =>
    some (t.foldl (fun prev current =>
      if prev.data.length < current.data.length then current else prev) h)

/-- Processing of one company in the list branch (route.ts 1493-1588 plus the
status attachment at 1595-1598).  The adapter arms are evaluated in source
order EXA, OpenAI, Apollo, Deepseek; `sources` collects the names of the arms
that contributed (the real `sources.push` order depends on promise completion
order, which only matters when two or more arms contribute). -/
def processCompany (company : String) (o : AdapterOutcomes) : StatusRecord :=
  let contribs : List (String × Option SparseCompany) :=
    [("EXA", exaContribution company o.exa),
     ("OpenAI", openaiContribution company o.openai),
     ("Apollo", apolloContribution company o.apollo),
     ("Deepseek", deepseekContribution company o.deepseek)]
  let best := mergeAll (contribs.map Prod.snd)
  let sources := contribs.filterMap (fun p => if p.2.isSome then some p.1 else none)
  let joined := joinComma sources
  { companyName := company,
    domain := best.domain,
    geography := best.geography,
    revenue := best.revenue,
    employees := best.employees,
    linkedinUrl := best.linkedinUrl,
    source := some (if joined == "" then "No data found" else joined),
    status := computeStatus best.domain }

/-! ## Company-name extraction (route.ts 174-361) -/

/-- Raw content of an LLM text completion: `unavailable` covers missing key,
non-2xx and thrown request (each mapped to the same place by the code). -/
inductive LlmTextOutcome
  | unavailable
  | content (s : String)
deriving DecidableEq, Repr

/-- `/^[\d\s.)-]+$/`: the line is nothing but numbering/bullet characters. -/
def bulletPattern (name : String) : Bool :=
  !name.data.isEmpty &&
    name.data.all (fun c => c.isDigit || isWsJs c || c == '.' || c == ')' || c == '-')

/-- Post-processing of the Perplexity extraction content (route.ts 256-265):
split on newline runs, fall back to a comma split for a single segment, then
drop empties, bullet-only lines and `note:` lines. -/
def perplexityPostprocess (result : String) : List String :=
  let companies0 := (splitRunsNlCr result.data).map (fun l => jsTrim (String.mk l))
  let companies :=
    if companies0.length == 1 && containsSub (companies0.getD 0 "") "," then
      (splitAnyChar (fun c => c == ',') (companies0.getD 0 "").data).map
        (fun l => jsTrim (String.mk l))
    else companies0
  companies.filter (fun name =>
    !(name == "") && !bulletPattern name && !startsWithStr (toLowerStr name) "note:")

/-- `extractCompanyNamesFromPerplexity` (route.ts 174-270) as a function of
the extraction call's outcome (the preceding intent call only chooses the
prompt, not the parsing). -/
def extractFromPerplexity (o : LlmTextOutcome) : List String :=
  match o with
  | .unavailable => []
  | .content s =>
    let result := jsTrim s
    if strIsEmpty result then [] else perplexityPostprocess result

/-- First match of `/\{([^}]+)\}/`: scan for a `\x7b`, take the following
non-`\x7d` run; it must be non-empty and closed. -/
def bracketMatch : List Char → Option (List Char)
  | [] => none
  | c :: rest =>
    if c == '\x7b' then
      let content := rest.takeWhile (fun d => !(d == '\x7d'))
      if content.isEmpty then bracketMatch rest
      else if (rest.drop content.length).head? == some '\x7d' then some content
      else bracketMatch rest
    else bracketMatch rest

/-- The cleaned line list of the `{...}` block stage (route.ts 283-286). -/
def braceLines (content : List Char) : List String :=
  ((splitRunsNlCr content).map (fun l => jsTrim (String.mk l))).filter (fun l => !(l == ""))

/-- The `{...}` block stage of `extractCompanyNames` (route.ts 280-289):
returns `some lines` exactly when the stage `return`s. -/
def braceStage (query : String) : Option (List String) :=
  if containsSub query "\x7b" && containsSub query "\x7d" then
    match bracketMatch query.data with
    | some content =>
      if 0 < (braceLines content).length then some (braceLines content) else none
    | none => none
  else none

/-- The cleaned line list of the newline stage (route.ts 293-300). -/
def newlineLines (query : String) : List String :=
  ((splitRunsNlCr query.data).map (fun l => jsTrim (String.mk l))).filter
    (fun l => !(l == "") && !bulletPattern l && !startsWithStr (toLowerStr l) "note:")

/-- The newline stage (route.ts 292-302). -/
def newlineStage (query : String) : Option (List String) :=
  if containsSub query "\n" then
    if 0 < (newlineLines query).length then some (newlineLines query) else none
  else none

/-- The item list of the comma stage (route.ts 306-309). -/
def commaItems (query : String) : List String :=
  ((splitAnyChar (fun c => c == ',') query.data).map
    (fun l => jsTrim (String.mk l))).filter (fun l => !(l == ""))

/-- The comma stage (route.ts 305-311). -/
def commaStage (query : String) : Option (List String) :=
  if containsSub query "," then
    if 0 < (commaItems query).length then some (commaItems query) else none
  else none

/-- The terminal Deepseek stage (route.ts 313-360): a missing key, a failed
or non-2xx request and an empty content all end in `return [query]`. -/
def deepseekStage (query : String) (dso : LlmTextOutcome) : List String :=
  match dso with
  | .unavailable => [query]
  | .content s =>
    let result := jsTrim s
    if strIsEmpty result then [query]
    else ((splitRunsNlCr result.data).map (fun l => jsTrim (String.mk l))).filter
      (fun l => !(l == ""))

/-- `extractCompanyNames` (route.ts 272-361): Perplexity, then the `{...}`
block, newline and comma heuristics, then Deepseek, then the raw query. -/
def extractCompanyNames (query : String) (po dso : LlmTextOutcome) : List String :=
  if 0 < (extractFromPerplexity po).length then extractFromPerplexity po
  else
    match braceStage query with
    | some lines => lines
    | none =>
      match newlineStage query with
      | some lines => lines
      | none =>
        match commaStage query with
        | some items => items
        | none => deepseekStage query dso

/-! ## Validators (route.ts 427-521) -/

/-- Result of an HTTP HEAD probe. -/
inductive ProbeOutcome
  | ok200
  | nonOk
  | netError
deriving DecidableEq, Repr

/-- `/^(https?:\/\/)?(www\.)?/i` replaced by the empty string. -/
def stripSchemeWww (s : String) : String :=
  let l := s.data
  let l1 :=
    match dropPreCI "https://".data l with
    | some r => r
    | none =>
      match dropPreCI "http://".data l with
      | some r => r
      | none => l
  match dropPreCI "www.".data l1 with
  | some r => String.mk r
  | none => String.mk l1

/-- `/\/$/` replaced by the empty string (drop one trailing slash). -/
def stripTrailingSlash (s : String) : String :=
  if s.data.getLast? == some '/' then String.mk s.data.dropLast else s

/-- `/^linkedin\.com\/company\/[\w-]+\/?$/` on the cleaned URL. -/
def linkedinCompanyPattern (s : String) : Bool :=
  match dropPre "linkedin.com/company/".data s.data with
  | none => false
  | some rest =>
    let core := if rest.getLast? == some '/' then rest.dropLast else rest
    !core.isEmpty && core.all (fun c => c.isAlpha || c.isDigit || c == '_' || c == '-')

/-- `verifyLinkedInUrl` (route.ts 427-473).  The `includes` guards run on the
RAW url and are case-sensitive; lower-casing happens only inside the
normalization.  On a network error the format check alone decides. -/
def verifyLinkedInUrl (url : String) (probe : ProbeOutcome) : Option String :=
  if !containsSub url "linkedin.com" then none
  else if !containsSub url "/company/" then none
  else
    let cleanUrl := jsTrim (toLowerStr (stripTrailingSlash (stripSchemeWww url)))
    if !linkedinCompanyPattern cleanUrl then none
    else
      let fullUrl := "https://www." ++ cleanUrl
      match probe with
      | .ok200 => some fullUrl
      | .nonOk => none
      | .netError => if linkedinCompanyPattern cleanUrl then some fullUrl else none

def isLocalMid (c : Char) : Bool :=
  c.isAlpha || c.isDigit || c == '.' || c == '_' || c == '-'

def isDomainChar (c : Char) : Bool :=
  c.isAlpha || c.isDigit || c == '.' || c == '-'

/-- `^[a-zA-Z0-9](?:[a-zA-Z0-9._-]*[a-zA-Z0-9])?` for the local part. -/
def emailLocalOk (l : List Char) : Bool :=
  match l with
  | [] => false
  | c :: rest =>
    (c.isAlpha || c.isDigit) &&
    (rest.isEmpty ||
     (rest.dropLast.all isLocalMid &&
      match rest.getLast? with
      | some d => d.isAlpha || d.isDigit
      | none => false))

/-- `[a-zA-Z0-9.-]+\.[a-zA-Z]{2,}$` for the domain part: with greedy
backtracking this matches exactly when the run after the LAST dot is two or
more letters and everything before that dot is a non-empty run of
`[a-zA-Z0-9.-]`. -/
def emailDomainOk (l : List Char) : Bool :=
  let rev := l.reverse
  let tldRev := rev.takeWhile (fun c => !(c == '.'))
  let restRev := rev.drop tldRev.length
  decide (2 ≤ tldRev.length) && tldRev.all Char.isAlpha &&
  (match restRev with
   | '.' :: beforeRev => !beforeRev.isEmpty && beforeRev.all isDomainChar
   | _ => false)

/-- The strict email regex of `verifyEmail`: the two char classes exclude
`@`, so the string must contain exactly one `@`. -/
def emailFormatOk (email : String) : Bool :=
  match splitAnyChar (fun c => c == '@') email.data with
  | [l, d] => emailLocalOk l && emailDomainOk d
  | _ => false

def invalidEmailPatterns : List String :=
  ["noreply", "no-reply", "donotreply", "test", "example", "temp", "fake",
   "spam", "admin@", "administrator@", "webmaster@", "info@", "contact@"]

/-- `verifyEmail` (route.ts 475-521): format check, exact case-insensitive
domain equality, blocked generic prefixes, then a HEAD probe of the domain
that must come back 2xx (a network error also rejects). -/
def verifyEmail (email domain : String) (probe : ProbeOutcome) : Bool :=
  if !emailFormatOk email then false
  else
    let emailDomain :=
      toLowerStr (String.mk ((splitAnyChar (fun c => c == '@') email.data).getD 1 []))
    let targetDomain := toLowerStr domain
    if !(emailDomain == targetDomain) then false
    else if invalidEmailPatterns.any (fun p => containsSub (toLowerStr email) p) then false
    else
      match probe with
      | .ok200 => true
      | .nonOk => false
      | .netError => false

/-! ## POST handler (route.ts 1477-1653) -/

/-- Result of `processQueryWithLangChain` (route.ts 1390-1437); on any
LangChain/parse failure the code substitutes
`{enhancedQuery: query, searchIntent: 'general', confidenceScore: 0.5}`,
which the oracle can supply directly. -/
structure ClassifiedQuery where
  enhancedQuery : String
  searchIntent : String
  confidenceScore : Rat
deriving DecidableEq, Repr

/-- All network/LLM outcomes one request can observe. -/
structure PostOracles where
  /-- the four adapter arms per company (list branch). -/
  perCompany : String → AdapterOutcomes
  /-- the LangChain classification of the query. -/
  classified : ClassifiedQuery
  /-- content of the Perplexity extraction on the enhanced query. -/
  branch2extract : LlmTextOutcome
  /-- the per-company `getCompanyDetails` outcome in the classifier branch. -/
  branch2openai : String → OpenAIOutcome
  /-- content of `getNaturalResponse` for the general fallback. -/
  naturalText : String

inductive PostResult
  /-- 400 `{error: 'Invalid query'}`. -/
  | badRequest
  | companies (results : List StatusRecord) (totalCompanies processedCompanies : Nat)
  | general (text : String) (source : String)
deriving DecidableEq, Repr

/-- `query.split('\n').map(trim).filter(nonEmpty)` (route.ts 1486). -/
def queryLines (q : String) : List String :=
  ((jsSplitNewline q).map jsTrim).filter (fun l => !(l == ""))

/-- The lexical list-detection predicate (route.ts 1487-1489): at least one
non-blank line and no interrogative marker anywhere in the lower-cased raw
query. -/
def isCompanyList (q : String) : Bool :=
  !(queryLines q).isEmpty
  && !containsSub (toLowerStr q) "?"
  && !containsSub (toLowerStr q) "what"
  && !containsSub (toLowerStr q) "how"
  && !containsSub (toLowerStr q) "find"
  && !containsSub (toLowerStr q) "search"

/-- The literal-list branch (route.ts 1491-1601). -/
def listBranch (q : String) (o : PostOracles) : PostResult :=
  PostResult.companies
    ((queryLines q).map (fun c => processCompany c (o.perCompany c)))
    (queryLines q).length
    ((queryLines q).map (fun c => processCompany c (o.perCompany c))).length

/-- One row of the classifier branch (route.ts 1613-1625): single-provider
path through `getCompanyDetails` only; `const domain = data.domain || 'Not
found'` is written out at each use site. -/
def branch2Record (company : String) (o : OpenAIOutcome) : StatusRecord :=
  { companyName := company,
    domain := some (jsOrD (getCompanyDetails company o).domain "Not found"),
    geography := some (jsOrD (getCompanyDetails company o).geography ""),
    revenue := some (jsOrD (getCompanyDetails company o).revenue ""),
    employees := some (jsOrD (getCompanyDetails company o).employees ""),
    linkedinUrl := some (jsOrD (getCompanyDetails company o).linkedinUrl ""),
    source := some "OpenAI",
    status := if jsOrD (getCompanyDetails company o).domain "Not found" == "Not found"
              then "not_found" else "verified" }

/-- The natural-language branch (route.ts 1603-1644). -/
def classifierBranch (o : PostOracles) : PostResult :=
  if o.classified.searchIntent == "company" then
    if 0 < (extractFromPerplexity o.branch2extract).length then
      PostResult.companies
        ((extractFromPerplexity o.branch2extract).map
          (fun c => branch2Record c (o.branch2openai c)))
        (extractFromPerplexity o.branch2extract).length
        ((extractFromPerplexity o.branch2extract).map
          (fun c => branch2Record c (o.branch2openai c))).length
    else PostResult.general o.naturalText "system"
  else PostResult.general o.naturalText "system"

/-- The POST handler (route.ts 1477-1653).  `none` models a missing or
non-string `query`; an empty string is also rejected by `!query`. -/
def handlePOST (query : Option String) (o : PostOracles) : PostResult :=
  match query with
  | none => .badRequest
  | some q =>
    if q == "" then .badRequest
    else if isCompanyList q then listBranch q o
    else classifierBranch o

/-- First truthy candidate of a list of possibly-undefined strings (the
specification-side description of the merge fold, defined to compare the
fold against). -/
def firstTruthyVal : List (Option String) → Option String
  | [] => none
  | v :: rest => if jsTruthy v then some (v.getD "") else firstTruthyVal rest

/-- `bestData.f || <candidates> || ''` once `bestData.f` holds string `a`. -/
def resolveFrom (a : String) (vs : List (Option String)) : String :=
  if a = "" then (firstTruthyVal vs).getD "" else a

/-- A fixed everything-fails oracle bundle, used to instantiate hypotheses
of the general theorems on concrete runs. -/
def trivOracles : PostOracles :=
  { perCompany := fun _ =>
      ⟨ExaOutcome.fail, OpenAIOutcome.noKey, ApolloOutcome.noKey, DeepseekOutcome.noKey⟩,
    classified := ⟨"", "general", 0⟩,
    branch2extract := LlmTextOutcome.unavailable,
    branch2openai := fun _ => OpenAIOutcome.noKey,
    naturalText := "" }

/-! ## Helper lemmas -/

theorem splitAnyChar_ne_nil (p : Char → Bool) (l : List Char) :
    splitAnyChar p l ≠ [] := by
  cases l with
  | nil => simp [splitAnyChar]
  | cons c rest =>
    simp only [splitAnyChar]
    by_cases h : p c
    · simp [h]
    · simp only [h, if_false]
      cases splitAnyChar p rest with
      | nil => simp
      | cons hd tl => simp

theorem splitAnyChar_all_neg (p : Char → Bool) (l : List Char)
    (h : ∀ c ∈ l, p c = false) : splitAnyChar p l = [l] := by
  induction l with
  | nil => rfl
  | cons c rest ih =>
    have hc : p c = false := h c (by simp)
    have hrest : splitAnyChar p rest = [rest] := ih (fun d hd => h d (by simp [hd]))
    simp [splitAnyChar, hc, hrest]

theorem dropWhile_head_false (p : α → Bool) (l : List α) (c : α) (rest : List α)
    (h : l.dropWhile p = c :: rest) : p c = false := by
  induction l with
  | nil => simp [List.dropWhile] at h
  | cons a as ih =>
    by_cases ha : p a
    · exact ih (by simpa [List.dropWhile, ha] using h)
    · rw [List.dropWhile_cons_of_neg ha] at h
      cases h
      simpa using ha

theorem mem_dropWhile_of_neg (p : α → Bool) (l : List α) (c : α)
    (hc : c ∈ l) (hp : p c = false) : c ∈ l.dropWhile p := by
  induction l with
  | nil => cases hc
  | cons a as ih =>
    by_cases ha : p a
    · rw [List.dropWhile_cons_of_pos ha]
      rcases List.mem_cons.mp hc with rfl | h
      · rw [ha] at hp; cases hp
      · exact ih h
    · rw [List.dropWhile_cons_of_neg ha]
      exact hc

theorem mem_trimList (c : Char) (l : List Char)
    (hc : c ∈ l) (hp : isWsJs c = false) : c ∈ trimList l := by
  unfold trimList
  rw [List.mem_reverse]
  apply mem_dropWhile_of_neg _ _ _ _ hp
  rw [List.mem_reverse]
  exact mem_dropWhile_of_neg _ _ _ hc hp

theorem trimList_has_solid (l : List Char) (h : trimList l ≠ []) :
    ∃ c ∈ trimList l, isWsJs c = false := by
  unfold trimList at h ⊢
  rcases hm : ((l.dropWhile isWsJs).reverse.dropWhile isWsJs) with _ | ⟨c, rest⟩
  · rw [hm] at h; simp at h
  · refine ⟨c, ?_, dropWhile_head_false _ _ _ _ hm⟩
    simp [hm]

theorem splitAnyChar_mem (p : Char → Bool) (l : List Char) (c : Char)
    (hc : c ∈ l) (hp : p c = false) :
    ∃ seg ∈ splitAnyChar p l, c ∈ seg := by
  induction l with
  | nil => cases hc
  | cons a as ih =>
    simp only [splitAnyChar]
    by_cases ha : p a
    · rcases List.mem_cons.mp hc with rfl | h
      · rw [ha] at hp; cases hp
      · rcases ih h with ⟨seg, hs, hcs⟩
        exact ⟨seg, by simp [ha, hs], hcs⟩
    · simp only [ha, if_false]
      rcases hr : splitAnyChar p as with _ | ⟨hd, tl⟩
      · exact absurd hr (splitAnyChar_ne_nil p as)
      · rcases List.mem_cons.mp hc with rfl | h
        · exact ⟨c :: hd, by simp, by simp⟩
        · rcases ih h with ⟨seg, hs, hcs⟩
          rw [hr] at hs
          rcases List.mem_cons.mp hs with rfl | hseg
          · exact ⟨a :: seg, by simp, by simp [hcs]⟩
          · exact ⟨seg, by simp [hseg], hcs⟩

theorem dropInteriorEmpties_mem (t : List (List Char)) (x : List Char)
    (hx : x ∈ t) (hne : x.isEmpty = false) : x ∈ dropInteriorEmpties t := by
  induction t with
  | nil => cases hx
  | cons y rest ih =>
    cases rest with
    | nil =>
      simp only [dropInteriorEmpties]
      simpa using hx
    | cons z zs =>
      simp only [dropInteriorEmpties]
      by_cases hy : y.isEmpty
      · simp only [hy, if_true]
        rcases List.mem_cons.mp hx with rfl | h
        · rw [hy] at hne; cases hne
        · exact ih h
      · simp only [hy, if_false]
        rcases List.mem_cons.mp hx with rfl | h
        · simp
        · simp [ih h]

theorem splitRunsNlCr_mem (l : List Char) (c : Char)
    (hc : c ∈ l) (hp : (c == '\n' || c == '\r') = false) :
    ∃ seg ∈ splitRunsNlCr l, c ∈ seg := by
  rcases splitAnyChar_mem (fun c => c == '\n' || c == '\r') l c hc hp with ⟨seg, hs, hcs⟩
  have hne : seg.isEmpty = false := by
    cases seg with
    | nil => cases hcs
    | cons _ _ => rfl
  unfold splitRunsNlCr
  rcases hr : splitAnyChar (fun c => c == '\n' || c == '\r') l with _ | ⟨hd, tl⟩
  · exact absurd hr (splitAnyChar_ne_nil _ l)
  · rw [hr] at hs
    rcases List.mem_cons.mp hs with rfl | hseg
    · exact ⟨seg, by simp, hcs⟩
    · exact ⟨seg, by simp [dropInteriorEmpties_mem tl seg hseg hne], hcs⟩

theorem strmk_eq_empty_iff (l : List Char) : (String.mk l = "") ↔ l = [] := by
  constructor
  · intro h
    have hd := congrArg String.data h
    simpa using hd
  · intro h
    rw [h]

theorem mapTrim_filter_ne_nil (s : String) (h : strIsEmpty (jsTrim s) = false) :
    ((splitRunsNlCr (jsTrim s).data).map (fun l => jsTrim (String.mk l))).filter
      (fun l => !(l == "")) ≠ [] := by
  have hdata : (jsTrim s).data = trimList s.data := rfl
  have htne : trimList s.data ≠ [] := by
    intro hnil
    have he : jsTrim s = "" := by
      unfold jsTrim; rw [hnil]
    rw [he] at h
    simp [strIsEmpty] at h
  rcases trimList_has_solid s.data htne with ⟨c, hcmem, hcws⟩
  have hnl : (c == '\n' || c == '\r') = false := by
    have h1 : c ≠ '\n' := by intro e; rw [e] at hcws; simp [isWsJs] at hcws
    have h2 : c ≠ '\r' := by intro e; rw [e] at hcws; simp [isWsJs] at hcws
    simp [beq_eq_false_iff_ne, h1, h2]
  rcases splitRunsNlCr_mem (trimList s.data) c hcmem hnl with ⟨seg, hseg, hcseg⟩
  have hsegne : jsTrim (String.mk seg) ≠ "" := by
    intro heq
    have hc2 : c ∈ trimList seg := mem_trimList c seg hcseg hcws
    have : trimList seg = [] := by
      have := congrArg String.data heq
      simpa [jsTrim] using this
    rw [this] at hc2
    cases hc2
  intro hfil
  have hmem : jsTrim (String.mk seg) ∈
      ((splitRunsNlCr (jsTrim s).data).map (fun l => jsTrim (String.mk l))) := by
    rw [hdata]
    exact List.mem_map_of_mem _ hseg
  have hkeep : (!(jsTrim (String.mk seg) == "")) = true := by
    simpa using hsegne
  have : jsTrim (String.mk seg) ∈
      ((splitRunsNlCr (jsTrim s).data).map (fun l => jsTrim (String.mk l))).filter
        (fun l => !(l == "")) := List.mem_filter.mpr ⟨hmem, hkeep⟩
  rw [hfil] at this
  cases this

theorem braceStage_some_ne_nil (q : String) (l : List String)
    (h : braceStage q = some l) : l ≠ [] := by
  unfold braceStage at h
  split at h
  · split at h
    · split at h
      · rename_i hlen
        cases h
        intro he
        rw [he] at hlen
        simp at hlen
      · cases h
    · cases h
  · cases h

theorem newlineStage_some_ne_nil (q : String) (l : List String)
    (h : newlineStage q = some l) : l ≠ [] := by
  unfold newlineStage at h
  split at h
  · split at h
    · rename_i hlen
      cases h
      intro he
      rw [he] at hlen
      simp at hlen
    · cases h
  · cases h

theorem commaStage_some_ne_nil (q : String) (l : List String)
    (h : commaStage q = some l) : l ≠ [] := by
  unfold commaStage at h
  split at h
  · split at h
    · rename_i hlen
      cases h
      intro he
      rw [he] at hlen
      simp at hlen
    · cases h
  · cases h

theorem deepseekStage_ne_nil (q : String) (dso : LlmTextOutcome) :
    deepseekStage q dso ≠ [] := by
  unfold deepseekStage
  cases dso with
  | unavailable => simp
  | content s =>
    by_cases h : strIsEmpty (jsTrim s)
    · simp [h]
    · have h2 : strIsEmpty (jsTrim s) = false := by simpa using h
      simp only [h2, if_false, Bool.false_eq_true]
      exact mapTrim_filter_ne_nil s h2

/-- C7: the company-name extraction fallback chain never throws (it is a
total function of the query and the two LLM outcomes) and always returns a
non-empty name list; each stage either returns a non-empty list or defers to
the next, and when no earlier stage applies (no Perplexity output, no brace
block, no newline, no comma, Deepseek unavailable) the terminal fallback
returns the whole raw query as a single-element list. -/
theorem c7_extraction_total_nonempty :
    (∀ (q : String) (po dso : LlmTextOutcome), extractCompanyNames q po dso ≠ []) ∧
    (∀ q : String, containsSub q "\x7b" = false → containsSub q "\n" = false →
      containsSub q "," = false →
      extractCompanyNames q LlmTextOutcome.unavailable LlmTextOutcome.unavailable = [q]) := by
  constructor
  · intro q po dso
    unfold extractCompanyNames
    by_cases hp : 0 < (extractFromPerplexity po).length
    · rw [if_pos hp]
      intro he
      rw [he] at hp
      simp at hp
    · rw [if_neg hp]
      rcases hb : braceStage q with _ | l
      · rcases hn : newlineStage q with _ | l
        · rcases hc : commaStage q with _ | l
          · simp only [hb, hn, hc]
            exact deepseekStage_ne_nil q dso
          · simp only [hb, hn, hc]
            exact commaStage_some_ne_nil q l hc
        · simp only [hb, hn]
          exact newlineStage_some_ne_nil q l hn
      · simp only [hb]
        exact braceStage_some_ne_nil q l hb
  · intro q h1 h2 h3
    have hb : braceStage q = none := by
      unfold braceStage
      simp [h1]
    have hn : newlineStage q = none := by
      unfold newlineStage
      simp [h2]
    have hc : commaStage q = none := by
      unfold commaStage
      simp [h3]
    unfold extractCompanyNames
    simp [extractFromPerplexity, hb, hn, hc, deepseekStage]

/-- Witness for C7 at a concrete query. -/
theorem c7_witness :
    extractCompanyNames "Acme Holdings" LlmTextOutcome.unavailable
      LlmTextOutcome.unavailable = ["Acme Holdings"] :=
  c7_extraction_total_nonempty.2 "Acme Holdings" (by decide) (by decide) (by decide)

/-! ## Merge-engine characterization (C2) -/

theorem jsOrF_some (a : String) (v : Option String) :
    jsOrF (some a) v = if a = "" then jsOrD v "" else a := by
  unfold jsOrF jsOrD jsTruthy
  by_cases h : a = ""
  · simp [h]
  · simp [h]

theorem mergeScalar_some (vs : List (Option String)) (a : String) :
    vs.foldl (fun acc v => some (jsOrF acc v)) (some a) = some (resolveFrom a vs) := by
  induction vs generalizing a with
  | nil =>
    unfold resolveFrom firstTruthyVal
    by_cases h : a = "" <;> simp [h]
  | cons v rest ih =>
    rw [List.foldl_cons, ih (jsOrF (some a) v)]
    by_cases ha : a = ""
    · by_cases hv : jsTruthy v
      · have hvne : v.getD "" ≠ "" := by
          cases v with
          | none => simp [jsTruthy] at hv
          | some s =>
            simp only [Option.getD]
            simpa [jsTruthy] using hv
        simp [resolveFrom, firstTruthyVal, jsOrF_some, ha, jsOrD, hv, hvne]
      · have hv2 : jsTruthy v = false := by simpa using hv
        simp [resolveFrom, firstTruthyVal, jsOrF_some, ha, jsOrD, hv2]
    · simp [resolveFrom, jsOrF_some, ha, jsOrD]

theorem mergeAll_fold_fields (ps : List SparseCompany) (b : SparseCompany) :
    ((ps.map some).foldl mergeStep b).domain =
      (ps.map (fun p => p.domain)).foldl (fun acc v => some (jsOrF acc v)) b.domain
    ∧ ((ps.map some).foldl mergeStep b).geography =
      (ps.map (fun p => p.geography)).foldl (fun acc v => some (jsOrF acc v)) b.geography
    ∧ ((ps.map some).foldl mergeStep b).revenue =
      (ps.map (fun p => p.revenue)).foldl (fun acc v => some (jsOrF acc v)) b.revenue
    ∧ ((ps.map some).foldl mergeStep b).employees =
      (ps.map (fun p => p.employees)).foldl (fun acc v => some (jsOrF acc v)) b.employees
    ∧ ((ps.map some).foldl mergeStep b).linkedinUrl =
      (ps.map (fun p => p.linkedinUrl)).foldl (fun acc v => some (jsOrF acc v)) b.linkedinUrl := by
  induction ps generalizing b with
  | nil => exact ⟨rfl, rfl, rfl, rfl, rfl⟩
  | cons p rest ih =>
    simpa [mergeStep] using ih (mergeStep b (some p))

theorem firstTruthy_from_none (vs : List (Option String)) :
    vs.foldl (fun acc v => some (jsOrF acc v)) none =
      match vs with
      | [] => none
      | v :: rest => some (resolveFrom (jsOrF none v) rest) := by
  cases vs with
  | nil => rfl
  | cons v rest =>
    rw [List.foldl_cons]
    have : jsOrF none v = jsOrD v "" := by
      unfold jsOrF jsOrD jsTruthy
      simp
    rw [this]
    exact mergeScalar_some rest (jsOrD v "")

theorem resolveFrom_head (v : Option String) (rest : List (Option String)) :
    resolveFrom (jsOrD v "") rest = (firstTruthyVal (v :: rest)).getD "" := by
  by_cases hv : jsTruthy v
  · have hvne : v.getD "" ≠ "" := by
      cases v with
      | none => simp [jsTruthy] at hv
      | some s =>
        simp only [Option.getD]
        simpa [jsTruthy] using hv
    simp [resolveFrom, firstTruthyVal, jsOrD, hv, hvne]
  · have hv2 : jsTruthy v = false := by simpa using hv
    simp [resolveFrom, firstTruthyVal, jsOrD, hv2]

theorem scalar_none_head (v : Option String) (rest : List (Option String)) :
    (v :: rest).foldl (fun acc w => some (jsOrF acc w)) none
      = some ((firstTruthyVal (v :: rest)).getD "") := by
  rw [List.foldl_cons]
  have h1 : jsOrF none v = jsOrD v "" := by
    unfold jsOrF jsOrD jsTruthy
    simp
  rw [h1, mergeScalar_some, resolveFrom_head]

/-- C2 counterexample: feeding the two partials of the claim, in order,
through the POST handler merge fold yields the FIRST value `"$1B"`, not the
longer `"$1.2B (2023)"` the claim requires. -/
theorem c2_counterexample :
    (mergeAll [some ⟨none, none, some "$1B", none, none⟩,
               some ⟨none, none, some "$1.2B (2023)", none, none⟩]).revenue
      = some "$1B"
    ∧ (mergeAll [some ⟨none, none, some "$1B", none, none⟩,
               some ⟨none, none, some "$1.2B (2023)", none, none⟩]).revenue
      ≠ some "$1.2B (2023)" := by
  constructor
  · rfl
  · decide

/-- C2 amended: in the merge actually executed by the POST handler
(route.ts 1562-1573), each of the five fields of the merged record is the
FIRST truthy candidate in adapter evaluation order — string length is never
compared.  (The longest-string rule lives in `findMostReliableValue`, which
the POST path never calls.) -/
theorem c2_first_nonempty_wins (p : SparseCompany) (ps : List SparseCompany) :
    (mergeAll ((p :: ps).map some)).domain
      = some ((firstTruthyVal ((p :: ps).map (fun x => x.domain))).getD "")
    ∧ (mergeAll ((p :: ps).map some)).geography
      = some ((firstTruthyVal ((p :: ps).map (fun x => x.geography))).getD "")
    ∧ (mergeAll ((p :: ps).map some)).revenue
      = some ((firstTruthyVal ((p :: ps).map (fun x => x.revenue))).getD "")
    ∧ (mergeAll ((p :: ps).map some)).employees
      = some ((firstTruthyVal ((p :: ps).map (fun x => x.employees))).getD "")
    ∧ (mergeAll ((p :: ps).map some)).linkedinUrl
      = some ((firstTruthyVal ((p :: ps).map (fun x => x.linkedinUrl))).getD "") := by
  obtain ⟨h1, h2, h3, h4, h5⟩ := mergeAll_fold_fields (p :: ps) emptySparse
  unfold mergeAll
  refine ⟨?_, ?_, ?_, ?_, ?_⟩
  · rw [h1]
    simpa [emptySparse] using scalar_none_head p.domain (ps.map (fun x => x.domain))
  · rw [h2]
    simpa [emptySparse] using scalar_none_head p.geography (ps.map (fun x => x.geography))
  · rw [h3]
    simpa [emptySparse] using scalar_none_head p.revenue (ps.map (fun x => x.revenue))
  · rw [h4]
    simpa [emptySparse] using scalar_none_head p.employees (ps.map (fun x => x.employees))
  · rw [h5]
    simpa [emptySparse] using scalar_none_head p.linkedinUrl (ps.map (fun x => x.linkedinUrl))

/-- For contrast: the unused helper `findMostReliableValue` would indeed pick
the longer string of the claim example. -/
theorem findMostReliableValue_longest_example :
    findMostReliableValue [some "$1B", some "$1.2B (2023)"] = some "$1.2B (2023)" := by
  rfl

/-! ## Status invariant (C3) -/

theorem computeStatus_verified_iff (d : Option String) :
    computeStatus d = "verified" ↔ ∃ s, d = some s ∧ s ≠ "" ∧ s ≠ "Not found" := by
  cases d with
  | none => simp [computeStatus]
  | some s =>
    unfold computeStatus
    by_cases h1 : s == ""
    · have he : s = "" := eq_of_beq h1
      simp [h1, he]
    · by_cases h2 : s == "Not found"
      · have he : s = "Not found" := eq_of_beq h2
        simp [h1, h2, he]
      · have hs1 : s ≠ "" := by intro e; rw [e] at h1; simp at h1
        have hs2 : s ≠ "Not found" := by intro e; rw [e] at h2; simp at h2
        simp [h1, h2, hs1, hs2]

theorem processCompany_status_iff (c : String) (o : AdapterOutcomes) :
    (processCompany c o).status = "verified" ↔
      ∃ s, (processCompany c o).domain = some s ∧ s ≠ "" ∧ s ≠ "Not found" :=
  computeStatus_verified_iff _

theorem jsOrD_ne_empty (a : Option String) (dflt : String) (h : dflt ≠ "") :
    jsOrD a dflt ≠ "" := by
  unfold jsOrD
  by_cases ht : jsTruthy a
  · simp only [ht, if_true]
    cases a with
    | none => simp [jsTruthy] at ht
    | some s =>
      simp only [Option.getD]
      intro e
      rw [e] at ht
      simp [jsTruthy] at ht
  · simp [ht, h]

theorem branch2Record_status_iff (c : String) (o : OpenAIOutcome) :
    (branch2Record c o).status = "verified" ↔
      ∃ s, (branch2Record c o).domain = some s ∧ s ≠ "" ∧ s ≠ "Not found" := by
  unfold branch2Record
  by_cases h : jsOrD (getCompanyDetails c o).domain "Not found" == "Not found"
  · have he := eq_of_beq h
    simp [h, he]
  · have hne : jsOrD (getCompanyDetails c o).domain "Not found" ≠ "Not found" := by
      intro e
      rw [e] at h
      simp at h
    have hnempty := jsOrD_ne_empty (getCompanyDetails c o).domain "Not found" (by decide)
    simp [h, hne, hnempty]

/-- C3 amended: a record returned by the handler has `status = "verified"`
iff its `domain` is present, non-empty AND different from the single sentinel
`"Not found"`.  The other sentinel tokens (`"Error"`, `"Parse Error"`,
`"API Error"`, `"No Response"`, `"No API Key"`) are NOT checked and yield
`status = "verified"`. -/
theorem c3_status_iff (q : String) (o : PostOracles)
    (results : List StatusRecord) (tot proc : Nat)
    (hpost : handlePOST (some q) o = PostResult.companies results tot proc) :
    ∀ r ∈ results, (r.status = "verified" ↔
      ∃ s, r.domain = some s ∧ s ≠ "" ∧ s ≠ "Not found") := by
  intro r hr
  rw [show handlePOST (some q) o =
      (if q == "" then PostResult.badRequest
       else if isCompanyList q then listBranch q o else classifierBranch o) from rfl] at hpost
  split at hpost
  · cases hpost
  · split at hpost
    · unfold listBranch at hpost
      injection hpost with e1 e2 e3
      subst e1
      rcases List.mem_map.mp hr with ⟨c, hc, hcr⟩
      rw [← hcr]
      exact processCompany_status_iff c _
    · unfold classifierBranch at hpost
      split at hpost
      · split at hpost
        · injection hpost with e1 e2 e3
          subst e1
          rcases List.mem_map.mp hr with ⟨c, hc, hcr⟩
          rw [← hcr]
          exact branch2Record_status_iff c _
        · cases hpost
      · cases hpost

/-- C3 witness: instantiating the amended invariant on a concrete run. -/
theorem c3_witness :
    (handlePOST (some "Globex")
        { perCompany := fun _ =>
            ⟨ExaOutcome.fail, OpenAIOutcome.noKey, ApolloOutcome.noKey, DeepseekOutcome.noKey⟩,
          classified := ⟨"", "general", 0⟩,
          branch2extract := LlmTextOutcome.unavailable,
          branch2openai := fun _ => OpenAIOutcome.noKey,
          naturalText := "" } =
      PostResult.companies
        [⟨"Globex", some "No API Key", some "", some "", some "", some "",
          some "OpenAI", "verified"⟩] 1 1)
    ∧ (("verified" : String) = "verified" ↔
        ∃ s, (some "No API Key" : Option String) = some s ∧ s ≠ "" ∧ s ≠ "Not found") := by
  constructor
  · rfl
  · have h := c3_status_iff "Globex"
      { perCompany := fun _ =>
          ⟨ExaOutcome.fail, OpenAIOutcome.noKey, ApolloOutcome.noKey, DeepseekOutcome.noKey⟩,
        classified := ⟨"", "general", 0⟩,
        branch2extract := LlmTextOutcome.unavailable,
        branch2openai := fun _ => OpenAIOutcome.noKey,
        naturalText := "" }
      [⟨"Globex", some "No API Key", some "", some "", some "", some "",
        some "OpenAI", "verified"⟩] 1 1 rfl
      ⟨"Globex", some "No API Key", some "", some "", some "", some "",
        some "OpenAI", "verified"⟩ (by simp)
    exact h

/-- C3 counterexample: with the OpenAI request throwing and every other
adapter silent, the single returned record carries the sentinel domain
`"API Error"` yet `status = "verified"`, contradicting the claimed
six-sentinel rule. -/
theorem c3_counterexample :
    handlePOST (some "Acme")
        { perCompany := fun _ =>
            ⟨ExaOutcome.fail, OpenAIOutcome.apiError, ApolloOutcome.noKey, DeepseekOutcome.noKey⟩,
          classified := ⟨"", "general", 0⟩,
          branch2extract := LlmTextOutcome.unavailable,
          branch2openai := fun _ => OpenAIOutcome.noKey,
          naturalText := "" } =
      PostResult.companies
        [⟨"Acme", some "API Error", some "", some "", some "", some "",
          some "OpenAI", "verified"⟩] 1 1 := by
  rfl

/-! ## Adapter failure contract (C4) and the all-fail record (C5) -/

/-- C4 counterexample: the LLM-completion adapter does NOT return the empty
partial `\x7b\x7d` on a missing credential — it returns a fully-populated sentinel
record whose domain is `"No API Key"` and whose source is `"Error"`. -/
theorem c4_counterexample :
    getCompanyDetails "Acme" OpenAIOutcome.noKey =
      ⟨"Acme", some "No API Key", some "", some "", some "", some "", some "Error"⟩
    ∧ toSparse (getCompanyDetails "Acme" OpenAIOutcome.noKey) ≠ emptySparse := by
  constructor
  · rfl
  · decide

/-- C4 amended: the two enrichment adapters do return `\x7b\x7d` on missing
credentials, thrown requests and empty/malformed payloads, and the
semantic-search arm contributes `null`; but the LLM-completion adapter
returns a sentinel-filled full record on each of its failure modes, so its
failure is observable (and is NOT the empty partial).  "Never throws" is the
totality of these functions over all enumerated outcomes. -/
theorem c4_adapter_failure_contract :
    (∀ (c : String) (d : Option String),
       getApolloData c d ApolloOutcome.noKey = emptySparse
       ∧ getApolloData c d ApolloOutcome.thrown = emptySparse
       ∧ getApolloData c d (ApolloOutcome.result none none) = emptySparse
       ∧ getApolloData c d (ApolloOutcome.result none (some [])) = emptySparse
       ∧ getDeepseekData c d DeepseekOutcome.noKey = emptySparse
       ∧ getDeepseekData c d DeepseekOutcome.thrown = emptySparse
       ∧ getDeepseekData c d DeepseekOutcome.noCompany = emptySparse)
    ∧ (∀ c : String, exaContribution c ExaOutcome.fail = none)
    ∧ (∀ c : String,
       (getCompanyDetails c OpenAIOutcome.noKey).domain = some "No API Key"
       ∧ (getCompanyDetails c OpenAIOutcome.apiError).domain = some "API Error"
       ∧ (getCompanyDetails c OpenAIOutcome.noResponse).domain = some "No Response"
       ∧ (getCompanyDetails c OpenAIOutcome.parseError).domain = some "Parse Error"
       ∧ toSparse (getCompanyDetails c OpenAIOutcome.noKey) ≠ emptySparse) := by
  refine ⟨?_, ?_, ?_⟩
  · intro c d
    refine ⟨rfl, rfl, ?_, ?_, rfl, rfl, rfl⟩
    · cases d <;> rfl
    · cases d <;> rfl
  · intro c
    rfl
  · intro c
    refine ⟨rfl, rfl, rfl, rfl, ?_⟩
    intro h
    simp [toSparse, getCompanyDetails, emptySparse] at h

/-- When the EXA, Apollo and Deepseek arms all contribute nothing, the
merged record is exactly the OpenAI record's field images (the OpenAI arm
always contributes), with `source = "OpenAI"`. -/
theorem processCompany_openai_only (company : String) (o : AdapterOutcomes)
    (hE : exaContribution company o.exa = none)
    (hA : apolloContribution company o.apollo = none)
    (hD : deepseekContribution company o.deepseek = none) :
    processCompany company o =
      ⟨company,
       some (jsOrF none (getCompanyDetails company o.openai).domain),
       some (jsOrF none (getCompanyDetails company o.openai).geography),
       some (jsOrF none (getCompanyDetails company o.openai).revenue),
       some (jsOrF none (getCompanyDetails company o.openai).employees),
       some (jsOrF none (getCompanyDetails company o.openai).linkedinUrl),
       some "OpenAI",
       computeStatus (some (jsOrF none (getCompanyDetails company o.openai).domain))⟩ := by
  unfold processCompany
  rw [hE, hA, hD]
  rfl

/-- C5 counterexample: with every adapter failing (EXA null, OpenAI missing
its key, Apollo and Deepseek missing theirs), the returned record is NOT
`(domain "", not_found, "No data found")`: the OpenAI failure record always
contributes, giving domain `"No API Key"`, status `"verified"` and source
`"OpenAI"`. -/
theorem c5_counterexample :
    handlePOST (some "Initech")
        { perCompany := fun _ =>
            ⟨ExaOutcome.fail, OpenAIOutcome.noKey, ApolloOutcome.noKey, DeepseekOutcome.noKey⟩,
          classified := ⟨"", "general", 0⟩,
          branch2extract := LlmTextOutcome.unavailable,
          branch2openai := fun _ => OpenAIOutcome.noKey,
          naturalText := "" } =
      PostResult.companies
        [⟨"Initech", some "No API Key", some "", some "", some "", some "",
          some "OpenAI", "verified"⟩] 1 1
    ∧ (some "No API Key" : Option String) ≠ some ""
    ∧ ("verified" : String) ≠ "not_found"
    ∧ (some "OpenAI" : Option String) ≠ some "No data found" := by
  refine ⟨rfl, by decide, by decide, by decide⟩

/-- C5 amended: for any company for which every adapter fails (the EXA search
yields nothing, the Apollo and Deepseek partials are empty, and the OpenAI
call fails in any of its four modes), the record still reports
`status = "verified"`, `source = "OpenAI"`, and a non-empty sentinel domain —
never the claimed `domain = ""` / `not_found` / `"No data found"`. -/
theorem c5_all_adapters_fail (company : String)
    (oo : OpenAIOutcome) (ao : ApolloOutcome) (dso : DeepseekOutcome)
    (ho : oo = OpenAIOutcome.noKey ∨ oo = OpenAIOutcome.apiError ∨
          oo = OpenAIOutcome.noResponse ∨ oo = OpenAIOutcome.parseError)
    (ha : apolloContribution company ao = none)
    (hd : deepseekContribution company dso = none) :
    (processCompany company ⟨ExaOutcome.fail, oo, ao, dso⟩).status = "verified"
    ∧ (processCompany company ⟨ExaOutcome.fail, oo, ao, dso⟩).source = some "OpenAI"
    ∧ (processCompany company ⟨ExaOutcome.fail, oo, ao, dso⟩).domain ≠ some ""
    ∧ (processCompany company ⟨ExaOutcome.fail, oo, ao, dso⟩).source
        ≠ some "No data found" := by
  have key := processCompany_openai_only company ⟨ExaOutcome.fail, oo, ao, dso⟩ rfl ha hd
  rcases ho with rfl | rfl | rfl | rfl <;>
    rw [key] <;>
    refine ⟨rfl, rfl, ?_, ?_⟩ <;> intro h <;>
      simp [getCompanyDetails, jsOrF, jsTruthy] at h

/-- C5 witness: the amended statement instantiated on a concrete all-fail
run. -/
theorem c5_witness :
    (processCompany "Initech"
        ⟨ExaOutcome.fail, OpenAIOutcome.noKey, ApolloOutcome.noKey,
         DeepseekOutcome.noKey⟩).status = "verified"
    ∧ (processCompany "Initech"
        ⟨ExaOutcome.fail, OpenAIOutcome.noKey, ApolloOutcome.noKey,
         DeepseekOutcome.noKey⟩).source = some "OpenAI"
    ∧ (processCompany "Initech"
        ⟨ExaOutcome.fail, OpenAIOutcome.noKey, ApolloOutcome.noKey,
         DeepseekOutcome.noKey⟩).domain ≠ some ""
    ∧ (processCompany "Initech"
        ⟨ExaOutcome.fail, OpenAIOutcome.noKey, ApolloOutcome.noKey,
         DeepseekOutcome.noKey⟩).source ≠ some "No data found" :=
  c5_all_adapters_fail "Initech" OpenAIOutcome.noKey ApolloOutcome.noKey
    DeepseekOutcome.noKey (Or.inl rfl) rfl rfl

/-! ## Fan-out shape (C6) and the lexical list path (C1) -/

theorem filter_of_all_true (p : α → Bool) (l : List α)
    (h : ∀ a ∈ l, p a = true) : l.filter p = l := by
  induction l with
  | nil => rfl
  | cons a as ih =>
    rw [List.filter_cons_of_pos (h a (by simp))]
    rw [ih (fun b hb => h b (by simp [hb]))]

/-- C6: the fan-out maps each input name to exactly one record, in input
order, whatever the per-name adapter outcomes are; and the two-line query
`"Acme Corp\nGlobex Inc"` produces, for EVERY oracle bundle, a companies
response with totalCompanies = 2, processedCompanies = 2 and the two records
in input order. -/
theorem c6_one_record_per_name :
    (∀ (names : List String) (pc : String → AdapterOutcomes),
       (names.map (fun c => processCompany c (pc c))).length = names.length
       ∧ (names.map (fun c => processCompany c (pc c))).map (fun r => r.companyName)
           = names)
    ∧ (∀ o : PostOracles,
       handlePOST (some "Acme Corp\nGlobex Inc") o =
         PostResult.companies
           [processCompany "Acme Corp" (o.perCompany "Acme Corp"),
            processCompany "Globex Inc" (o.perCompany "Globex Inc")] 2 2
       ∧ [processCompany "Acme Corp" (o.perCompany "Acme Corp"),
          processCompany "Globex Inc" (o.perCompany "Globex Inc")].map
           (fun r => r.companyName) = ["Acme Corp", "Globex Inc"]) := by
  constructor
  · intro names pc
    constructor
    · simp
    · rw [List.map_map]
      have hcomp : ((fun r => StatusRecord.companyName r) ∘
          (fun c => processCompany c (pc c))) = fun c => c := by
        funext c
        rfl
      rw [hcomp]
      exact List.map_id names
  · intro o
    exact ⟨rfl, rfl⟩

theorem queryLines_of_nonblank (q : String)
    (hlines : ∀ l ∈ jsSplitNewline q, strIsEmpty (jsTrim l) = false) :
    queryLines q = (jsSplitNewline q).map jsTrim := by
  unfold queryLines
  apply filter_of_all_true
  intro a ha
  rcases List.mem_map.mp ha with ⟨l, hl, rfl⟩
  have := hlines l hl
  rw [strIsEmpty] at this
  simp [this]

theorem jsSplitNewline_ne_nil (q : String) : jsSplitNewline q ≠ [] := by
  unfold jsSplitNewline
  intro h
  exact splitAnyChar_ne_nil _ q.data (List.map_eq_nil_iff.mp h)

/-- C1: when every line of the query is non-blank and the lower-cased query
contains none of the markers `?`, `what`, `how`, `find`, `search`, the
handler takes the lexical list-detection path: the response is the companies
response whose rows are exactly the trimmed lines in original order, and the
output does not depend on the classification/extraction/natural-language
oracles at all (any two oracle bundles with the same per-company adapter
outcomes yield the same response). -/
theorem c1_list_path_returns_trimmed_lines (q : String) (or1 or2 : PostOracles)
    (hpc : or1.perCompany = or2.perCompany)
    (hlines : ∀ l ∈ jsSplitNewline q, strIsEmpty (jsTrim l) = false)
    (hq : containsSub (toLowerStr q) "?" = false)
    (hw : containsSub (toLowerStr q) "what" = false)
    (hh : containsSub (toLowerStr q) "how" = false)
    (hf : containsSub (toLowerStr q) "find" = false)
    (hs : containsSub (toLowerStr q) "search" = false) :
    handlePOST (some q) or1 =
      PostResult.companies
        ((jsSplitNewline q).map
          (fun l => processCompany (jsTrim l) (or1.perCompany (jsTrim l))))
        (jsSplitNewline q).length (jsSplitNewline q).length
    ∧ ((jsSplitNewline q).map
        (fun l => processCompany (jsTrim l) (or1.perCompany (jsTrim l)))).map
        (fun r => r.companyName) = (jsSplitNewline q).map jsTrim
    ∧ handlePOST (some q) or1 = handlePOST (some q) or2 := by
  have hql := queryLines_of_nonblank q hlines
  have hqne : q ≠ "" := by
    intro rfl0
    subst rfl0
    have hmem : "" ∈ jsSplitNewline "" := by decide
    have := hlines "" hmem
    rw [show jsTrim "" = "" from rfl] at this
    simp [strIsEmpty] at this
  have hbe : (q == "") = false := by
    simp [hqne]
  have hqlne : (queryLines q).isEmpty = false := by
    rw [hql]
    rcases hsp : jsSplitNewline q with _ | ⟨a, as⟩
    · exact absurd hsp (jsSplitNewline_ne_nil q)
    · rfl
  have hcl : isCompanyList q = true := by
    unfold isCompanyList
    rw [hqlne, hq, hw, hh, hf, hs]
    rfl
  have hred : handlePOST (some q) or1 = listBranch q or1 := by
    rw [show handlePOST (some q) or1 =
        (if q == "" then PostResult.badRequest
         else if isCompanyList q then listBranch q or1 else classifierBranch or1) from rfl]
    rw [hbe, hcl]
    simp
  have hred2 : handlePOST (some q) or2 = listBranch q or2 := by
    rw [show handlePOST (some q) or2 =
        (if q == "" then PostResult.badRequest
         else if isCompanyList q then listBranch q or2 else classifierBranch or2) from rfl]
    rw [hbe, hcl]
    simp
  have hlist : listBranch q or1 =
      PostResult.companies
        ((jsSplitNewline q).map
          (fun l => processCompany (jsTrim l) (or1.perCompany (jsTrim l))))
        (jsSplitNewline q).length (jsSplitNewline q).length := by
    unfold listBranch
    rw [hql, List.map_map, List.length_map, List.length_map]
    rfl
  refine ⟨hred.trans hlist, ?_, ?_⟩
  · rw [List.map_map]
    rfl
  · rw [hred, hred2]
    unfold listBranch
    rw [hpc]

/-- C1 witness on a concrete two-line query. -/
theorem c1_witness :
    handlePOST (some "Foo Inc\nBar LLC") trivOracles =
      PostResult.companies
        ((jsSplitNewline "Foo Inc\nBar LLC").map
          (fun l => processCompany (jsTrim l) (trivOracles.perCompany (jsTrim l))))
        (jsSplitNewline "Foo Inc\nBar LLC").length
        (jsSplitNewline "Foo Inc\nBar LLC").length
    ∧ ((jsSplitNewline "Foo Inc\nBar LLC").map
        (fun l => processCompany (jsTrim l) (trivOracles.perCompany (jsTrim l)))).map
        (fun r => r.companyName) = (jsSplitNewline "Foo Inc\nBar LLC").map jsTrim
    ∧ handlePOST (some "Foo Inc\nBar LLC") trivOracles =
        handlePOST (some "Foo Inc\nBar LLC") trivOracles :=
  c1_list_path_returns_trimmed_lines "Foo Inc\nBar LLC" trivOracles trivOracles rfl
    (by decide) (by decide) (by decide) (by decide) (by decide) (by decide)

/-! ## List-detection semantics (C10) -/

/-- C10: the list-detection predicate is a case-insensitive substring test
over the whole raw query and fires as soon as one non-blank line exists: a
single non-blank marker-free line is processed as a one-company literal
list, while the two-line list "Whatsapp\nAcme Corp" is diverted to the LLM
classifier branch just because "Whatsapp" contains "what". -/
theorem c10_detection_substring_semantics :
    (∀ (q : String) (o : PostOracles),
       (∀ c ∈ q.data, (c == '\n') = false) →
       strIsEmpty (jsTrim q) = false →
       containsSub (toLowerStr q) "?" = false →
       containsSub (toLowerStr q) "what" = false →
       containsSub (toLowerStr q) "how" = false →
       containsSub (toLowerStr q) "find" = false →
       containsSub (toLowerStr q) "search" = false →
       handlePOST (some q) o =
         PostResult.companies
           [processCompany (jsTrim q) (o.perCompany (jsTrim q))] 1 1)
    ∧ isCompanyList "Whatsapp\nAcme Corp" = false
    ∧ (∀ o : PostOracles,
        handlePOST (some "Whatsapp\nAcme Corp") o = classifierBranch o) := by
  refine ⟨?_, by decide, fun o => rfl⟩
  intro q o hnl hblank hq hw hh hf hs
  have hsplit : jsSplitNewline q = [q] := by
    unfold jsSplitNewline
    rw [splitAnyChar_all_neg _ _ hnl]
    rfl
  have hlines : ∀ l ∈ jsSplitNewline q, strIsEmpty (jsTrim l) = false := by
    rw [hsplit]
    intro l hl
    have : l = q := List.mem_singleton.mp hl
    rw [this]
    exact hblank
  have hql : queryLines q = [jsTrim q] := by
    rw [queryLines_of_nonblank q hlines, hsplit]
    rfl
  have hqne : q ≠ "" := by
    intro e
    subst e
    rw [show jsTrim "" = "" from rfl] at hblank
    simp [strIsEmpty] at hblank
  have hbe : (q == "") = false := by
    simp [hqne]
  have hcl : isCompanyList q = true := by
    unfold isCompanyList
    rw [hql, hq, hw, hh, hf, hs]
    rfl
  have hred : handlePOST (some q) o = listBranch q o := by
    rw [show handlePOST (some q) o =
        (if q == "" then PostResult.badRequest
         else if isCompanyList q then listBranch q o else classifierBranch o) from rfl]
    rw [hbe, hcl]
    simp
  rw [hred]
  unfold listBranch
  rw [hql]
  rfl

/-- C10 witness: a single non-blank line is resolved as a one-company
literal list. -/
theorem c10_witness :
    handlePOST (some "Stark Industries") trivOracles =
      PostResult.companies
        [processCompany (jsTrim "Stark Industries")
          (trivOracles.perCompany (jsTrim "Stark Industries"))] 1 1 :=
  c10_detection_substring_semantics.1 "Stark Industries" trivOracles
    (by decide) (by decide) (by decide) (by decide) (by decide) (by decide) (by decide)

/-! ## LinkedIn canonicalizer (C8) and email validator (C9) -/

/-- C8 counterexample: the upper-cased input is REJECTED (the
case-sensitive `includes('linkedin.com')` guard runs before any
lower-casing), so it does not normalize to the same URL as the lower-case
spellings. -/
theorem c8_counterexample :
    verifyLinkedInUrl "LINKEDIN.COM/COMPANY/ACME" ProbeOutcome.ok200 = none
    ∧ verifyLinkedInUrl "linkedin.com/company/acme/" ProbeOutcome.ok200
        = some "https://www.linkedin.com/company/acme"
    ∧ verifyLinkedInUrl "LINKEDIN.COM/COMPANY/ACME" ProbeOutcome.ok200
        ≠ verifyLinkedInUrl "linkedin.com/company/acme/" ProbeOutcome.ok200 := by
  refine ⟨rfl, rfl, by decide⟩

/-- C8 amended: under every probe outcome the two lower-case spellings
canonicalize identically (and, whenever accepted, to
`https://www.linkedin.com/company/acme`), the personal-profile URL is
rejected, and the all-caps spelling is rejected by the case-sensitive
`includes` guards. -/
theorem c8_linkedin_canonicalizer :
    ∀ probe : ProbeOutcome,
      verifyLinkedInUrl "linkedin.com/company/acme/" probe
        = verifyLinkedInUrl "https://www.linkedin.com/company/acme" probe
      ∧ verifyLinkedInUrl "LINKEDIN.COM/COMPANY/ACME" probe = none
      ∧ verifyLinkedInUrl "linkedin.com/in/jdoe" probe = none
      ∧ verifyLinkedInUrl "linkedin.com/company/acme/" ProbeOutcome.ok200
          = some "https://www.linkedin.com/company/acme"
      ∧ verifyLinkedInUrl "linkedin.com/company/acme/" ProbeOutcome.netError
          = some "https://www.linkedin.com/company/acme" := by
  intro probe
  cases probe <;> exact ⟨rfl, rfl, rfl, rfl, rfl⟩

/-- C9: the email validator accepts `ceo@acme.com` against `acme.com`
(the acceptance also requires the HEAD probe of the domain to come back
2xx, which the claim's scenario presumes), rejects `ceo@sub.acme.com`
against `acme.com` under every probe outcome because only an exact
case-insensitive domain match passes, and rejects `info@acme.com` under
every probe outcome because of the blocked `info@` prefix. -/
theorem c9_email_validator :
    ∀ probe : ProbeOutcome,
      verifyEmail "ceo@acme.com" "acme.com" ProbeOutcome.ok200 = true
      ∧ verifyEmail "ceo@sub.acme.com" "acme.com" probe = false
      ∧ verifyEmail "info@acme.com" "acme.com" probe = false := by
  intro probe
  cases probe <;> exact ⟨rfl, rfl, rfl⟩
